import Mathlib

/- A shallow embedding of `src/get_licenses.py` (hackage-license-scraper).

   The external collaborators — the HTTP transport (`requests.get`), the HTML
   extraction (`bs4` parsing of a Hackage package page, lines 251-271) and
   Python's string `hash` composed with `hex(...)[2:]` (line 289) — are
   parameters of a `World` record.  The crawl loop of `Package.scrape`
   (lines 205-340) is embedded as a fuel-indexed transition system over
   `CrawlState`, and the report loop of `main` (lines 377-384) as
   `renderReport`.  All file-system and terminal side effects (directory
   creation, license-file writes, progress printing) are omitted; warnings
   are recorded in the state as a `Warning` list. -/

/-- An HTTP response as seen through `requests.get`: `status_code` and `text`. -/
structure Response where
  status_code : Nat
  text : String
  deriving DecidableEq, Repr

/-- What the bs4 extraction block (lines 251-271) computes from a package page:
short description, declared license name, optional license URL and the
dependency list as (name, url) pairs.  The extraction itself is an external
collaborator. -/
structure PageInfo where
  short : String
  license : String
  license_url : Option String
  deps : List (String × String)
  deriving DecidableEq, Repr

/-- The external collaborators of the crawl: `get` models `requests.get`
(one URL to one response, fixed for the run), `extract` the bs4 page parsing,
and `pyHash` the composite `hex(hash(·))[2:]` of line 289 (Python's per-process
string hash rendered in hex). -/
structure World where
  get : String → Response
  extract : String → PageInfo
  pyHash : String → String

/-- `class License` (lines 136-152): `name` is the disambiguated display name,
`type` the raw declared license name, `shash` the content hash key, `path` the
optional on-disk location, `packages` the idents using this license. -/
structure License where
  name : String
  type : String
  shash : String
  path : Option String
  packages : List String
  deriving DecidableEq, Repr

/-- `class Package` (lines 156-186).  The Python field `license_hash` is
declared `Optional[str]`, but `Package.scrape` always assigns a string to it
(either the hex hash of line 289 or the `"<unhashed>"` sentinel of line 292),
so it is embedded as `String`. -/
structure Package where
  ident : String
  short : String
  url : String
  license : String
  license_url : Option String
  license_hash : String
  deriving DecidableEq, Repr

/-- The warnings `Package.scrape` can emit, by source line:
`pageFailed` is line 246, `noLicenseUrl` is line 265 and
`licenseBodyFailed` is line 282. -/
inductive Warning where
  | pageFailed (ident : String)
  | noLicenseUrl (ident : String)
  | licenseBodyFailed (ident : String)
  deriving DecidableEq, Repr

/-- One dependency-tree node `(ident, children)` (lines 208, 336).  The Python
children lists are mutable and aliased between the tree tuples and the `todo`
items, so nodes live in an arena (`CrawlState.nodes`) and `children` holds
arena indices. -/
structure Node where
  ident : String
  children : List Nat
  deriving DecidableEq, Repr

/-- The mutable state of the `while` loop of `Package.scrape` (lines 205-213):
`todo` (head = top of the Python LIFO stack, each item carrying the arena index
of its tree node), `done` (the visited set), `res` (the package map, in
insertion order), `licenses` (the license map, in insertion order), `nodes`
(the arena of tree nodes), `lastTree` (the arena index the loop variable
`tree` holds after the most recent pop, line 214), plus two observation logs:
`fetches` records the ident of every package-page GET issued (line 244) and
`warnings` every warning emitted. -/
structure CrawlState where
  todo : List (String × String × Nat)
  done : List String
  res : List (String × Package)
  licenses : List (String × License)
  nodes : List Node
  lastTree : Nat
  fetches : List String
  warnings : List Warning
  deriving DecidableEq, Repr

/-- Association-list lookup modelling Python dict indexing / membership
(`licenses[license_hash]`, `license_hash not in licenses`, `res[ident]`). -/
def alookup {β : Type} (l : List (String × β)) (k : String) : Option β :=
  match l with
  | [] => none
  | (k', v) :: t => if k' = k then some v else alookup t k

/-- Python `str.strip()` (line 289): drop leading and trailing whitespace. -/
def pyWhitespace (c : Char) : Bool :=
  c == ' ' || c == '\t' || c == '\n' || c == '\r'

/-- Python `str.strip()` on the license body text (line 289). -/
def pyStrip (s : String) : String :=
  ⟨((s.data.dropWhile pyWhitespace).reverse.dropWhile pyWhitespace).reverse⟩

/-- Lines 294-314: if `lhash` is not yet a key of `licenses`, count the
existing entries of the same declared type (line 297), derive the
disambiguated name (line 298), derive the persistence path
`download/ltype/ident` when downloading (lines 300-311; the directory
creation itself is I/O and omitted), and append the new `License` entry
(line 314).  If the hash is already known, nothing changes. -/
def resolveLicense (licenses : List (String × License)) (ltype lhash ident : String)
    (download : Option String) : List (String × License) :=
  match alookup licenses lhash with
  | some _ => licenses
  | none =>
    let n := (licenses.filter (fun e => e.2.type == ltype)).length
    let name := if n = 0 then ltype else ltype ++ "(" ++ toString n ++ ")"
    let path := download.map (fun dl => dl ++ "/" ++ ltype ++ "/" ++ ident)
    licenses ++ [(lhash, ⟨name, ltype, lhash, path, []⟩)]

/-- Line 327: `licenses[license_hash].packages.append(ident)` — append `ident`
to the packages list of the entry keyed `lhash`, leaving all others alone. -/
def addPackage (licenses : List (String × License)) (lhash ident : String) :
    List (String × License) :=
  licenses.map (fun e =>
    if e.1 = lhash then (e.1, { e.2 with packages := e.2.packages ++ [ident] }) else e)

/-- Lines 334-337: for each dependency, create a fresh tree node, append its
arena index to the children of the current node `nid`, and collect the new
`todo` items in discovery order. -/
def pushDeps (nodes : List Node) (nid : Nat) (deps : List (String × String)) :
    List Node × List (String × String × Nat) :=
  deps.foldl (fun acc dep =>
    let k := acc.1.length
    let nodes1 := acc.1 ++ [⟨dep.1, []⟩]
    let cur := nodes1.getD nid ⟨"", []⟩
    (nodes1.set nid ⟨cur.ident, cur.children ++ [k]⟩, acc.2 ++ [(dep.1, dep.2, k)]))
    (nodes, [])

/-- The success path of one loop iteration (lines 251-337), entered when the
page GET returned status 200: extract the `PageInfo`; warn when the license
has no URL (line 265); fetch the license body when a URL is present
(line 280); the body-failure check of line 281 compares `html.status_code` —
the PAGE response, not the body response — exactly as the source does; hash
the stripped body text or fall back to the `"<unhashed>"` sentinel
(lines 286-292); resolve the license entry and record the usage
(lines 294-327); store the `Package` (line 330), mark the ident visited
(line 331) and push the dependencies (lines 334-337).  New `todo` items are
reversed because Python pushes them onto the end of a stack popped from the
end. -/
def processSuccess (w : World) (download : Option String) (ident url : String) (nid : Nat)
    (rest : List (String × String × Nat)) (page : Response) (st : CrawlState) : CrawlState :=
  let info := w.extract page.text
  let warnNoUrl : List Warning :=
    match info.license_url with
    | some _ => []
    | none => [Warning.noLicenseUrl ident]
  let body : Option Response := info.license_url.map w.get
  let warnBody : List Warning :=
    match info.license_url with
    | some _ => if page.status_code ≠ 200 then [Warning.licenseBodyFailed ident] else []
    | none => []
  let lhash : String :=
    match body with
    | some b => w.pyHash (pyStrip b.text)
    | none => "<unhashed>"
  let pd := pushDeps st.nodes nid info.deps
  { todo := pd.2.reverse ++ rest
    done := st.done ++ [ident]
    res := st.res ++ [(ident, ⟨ident, info.short, url, info.license, info.license_url, lhash⟩)]
    licenses := addPackage (resolveLicense st.licenses info.license lhash ident download) lhash ident
    nodes := pd.1
    lastTree := nid
    fetches := st.fetches ++ [ident]
    warnings := st.warnings ++ (warnNoUrl ++ warnBody) }

/-- One iteration of the `while` loop of `Package.scrape` (lines 213-337):
pop the top `todo` item and rebind the loop variable `tree` (line 214,
recorded as `lastTree`); skip idents already visited (lines 220-223); issue
the page GET (line 244, logged in `fetches`); on a non-200 status warn, mark
visited and continue (lines 245-249); otherwise take the success path. -/
def step (w : World) (download : Option String) (st : CrawlState) : CrawlState :=
  match st.todo with
  | [] => st
  | (ident, url, nid) :: rest =>
    if ident ∈ st.done then
      { st with todo := rest, lastTree := nid }
    else
      let page := w.get url
      if page.status_code ≠ 200 then
        { st with
          todo := rest
          lastTree := nid
          done := st.done ++ [ident]
          fetches := st.fetches ++ [ident]
          warnings := st.warnings ++ [Warning.pageFailed ident] }
      else
        processSuccess w download ident url nid rest page st

/-- The `while len(todo) > 0` loop (line 213), fuel-indexed: the dependency
graph served by an arbitrary `World` can be infinite, so the Python loop need
not terminate; `run` performs at most `fuel` iterations and stops early when
the queue empties. -/
def run (w : World) (download : Option String) : Nat → CrawlState → CrawlState
  | 0, st => st
  | fuel + 1, st =>
    match st.todo with
    | [] => st
    | _ :: _ => run w download fuel (step w download st)

/-- Lines 205-212: the state at loop entry — the root tree node `(ident, [])`
(line 208) is arena node 0 and the queue holds the root item carrying the
root children list (line 212). -/
def initState (ident url : String) : CrawlState :=
  { todo := [(ident, url, 0)]
    done := []
    res := []
    licenses := []
    nodes := [⟨ident, []⟩]
    lastTree := 0
    fetches := []
    warnings := [] }

/-- `Package.scrape ident url download delay` (lines 188-340), with the two
rate-limit sleeps (lines 238-240, 276-278) dropped: they affect timing only.
Returns the final loop state; the tuple returned at line 340 is
`(st.res, returnedTree st, st.licenses)`. -/
def crawl (w : World) (download : Option String) (fuel : Nat) (ident url : String) : CrawlState :=
  run w download fuel (initState ident url)

/-- The second component of the tuple returned at line 340: the value of the
loop variable `tree`, i.e. the children list of the node popped last
(rebound at line 214 on every iteration — NOT the root tuple of line 208). -/
def returnedTree (st : CrawlState) : List Nat :=
  (st.nodes.getD st.lastTree ⟨"", []⟩).children

/-- The report loop of `main` (lines 377-384): for each declared type
occurring among the license entries (Python iterates a `set`, whose order is
unspecified; the model dedups the type list), list every package whose
DECLARED license string equals that type (line 382 compares
`pkgs[ident].license == type`).  `main` receives `trim` but its report loop
never consults it, so the parameter is unused here exactly as in the source. -/
def renderReport (pkgs : List (String × Package)) (licenses : List (String × License))
    (trim : Bool) : List (String × List String) :=
  ((licenses.map (fun e => e.2.type)).dedup).map (fun t =>
    (t, (pkgs.filter (fun e => e.2.license == t)).map Prod.fst))

/-- Concrete world: root `eflint` depends on `aeson`; both declare `MIT` with
byte-identical body text `"TEXT"`. -/
def get1 : String → Response := fun u =>
  if u = "U/eflint" then ⟨200, "eflint-page"⟩
  else if u = "U/aeson" then ⟨200, "aeson-page"⟩
  else if u = "L/eflint" then ⟨200, "TEXT"⟩
  else if u = "L/aeson" then ⟨200, "TEXT"⟩
  else ⟨404, ""⟩

def extract1 : String → PageInfo := fun t =>
  if t = "eflint-page" then ⟨"descA", "MIT", some "L/eflint", [("aeson", "U/aeson")]⟩
  else if t = "aeson-page" then ⟨"descB", "MIT", some "L/aeson", []⟩
  else ⟨"", "", none, []⟩

def w1 : World := ⟨get1, extract1, fun s => "#" ++ s⟩

/-- Concrete world: root `a` (declared `MIT`, no license URL) depends on `b`
(declared `BSD`, no license URL) — two body-less packages of different
declared types. -/
def get3 : String → Response := fun u =>
  if u = "U/a" then ⟨200, "a-page"⟩
  else if u = "U/b" then ⟨200, "b-page"⟩
  else ⟨404, ""⟩

def extract3 : String → PageInfo := fun t =>
  if t = "a-page" then ⟨"da", "MIT", none, [("b", "U/b")]⟩
  else if t = "b-page" then ⟨"db", "BSD", none, []⟩
  else ⟨"", "", none, []⟩

def w3 : World := ⟨get3, extract3, fun s => "#" ++ s⟩

/-- Concrete world: package `p`'s page succeeds and declares license `MIT`
with a license URL, but the license-body GET fails with status 404 and an
error page body `"NOTFOUND"`. -/
def get6 : String → Response := fun u =>
  if u = "U/p" then ⟨200, "p-page"⟩
  else if u = "L/p" then ⟨404, "NOTFOUND"⟩
  else ⟨404, ""⟩

def extract6 : String → PageInfo := fun t =>
  if t = "p-page" then ⟨"dp", "MIT", some "L/p", []⟩
  else ⟨"", "", none, []⟩

def w6 : World := ⟨get6, extract6, fun s => "#" ++ s⟩

/-- Concrete world where every page GET fails with status 500. -/
def w7 : World := ⟨fun _ => ⟨500, "server error"⟩, fun _ => ⟨"", "", none, []⟩, fun s => s⟩

/-- The relation between the license map and the package map that lines
294-331 maintain: license-map keys are unique, every packages list is
duplicate-free, every ident listed under a license entry is a package whose
stored hash is that entry's key, and every stored package is listed under the
entry its hash looks up to. -/
structure LicInv (licenses : List (String × License)) (res : List (String × Package)) : Prop where
  keysNodup : (licenses.map Prod.fst).Nodup
  pkgNodup : ∀ h L, (h, L) ∈ licenses → L.packages.Nodup
  pkgRes : ∀ h L, (h, L) ∈ licenses → ∀ x ∈ L.packages,
      ∃ P, alookup res x = some P ∧ P.license_hash = h
  resPkg : ∀ p P, alookup res p = some P →
      ∃ L, alookup licenses P.license_hash = some L ∧ p ∈ L.packages

/-- The loop invariant of `Package.scrape`: the visited set, the fetch log and
the package-map keys are duplicate-free, every fetched ident and every stored
package is visited, and the license/package relation `LicInv` holds. -/
structure CrawlInv (st : CrawlState) : Prop where
  doneNodup : st.done.Nodup
  fetchNodup : st.fetches.Nodup
  fetchDone : ∀ x ∈ st.fetches, x ∈ st.done
  resKeysNodup : (st.res.map Prod.fst).Nodup
  resDone : ∀ x ∈ st.res.map Prod.fst, x ∈ st.done
  lic : LicInv st.licenses st.res

/- ### Association-list lemmas -/

theorem alookup_nil {β : Type} (k : String) : alookup ([] : List (String × β)) k = none := rfl

theorem alookup_cons {β : Type} (k' : String) (v' : β) (t : List (String × β)) (k : String) :
    alookup ((k', v') :: t) k = if k' = k then some v' else alookup t k := rfl

theorem alookup_append_left {β : Type} {l1 : List (String × β)} (l2 : List (String × β))
    {k : String} {v : β} (h : alookup l1 k = some v) : alookup (l1 ++ l2) k = some v := by
  induction l1 with
  | nil => simp [alookup_nil] at h
  | cons e t ih =>
    obtain ⟨k', v'⟩ := e
    by_cases hk : k' = k
    · simpa [alookup_cons, hk] using h
    · rw [alookup_cons, if_neg hk] at h
      rw [List.cons_append, alookup_cons, if_neg hk]
      exact ih h

theorem alookup_append_right {β : Type} {l1 : List (String × β)} (l2 : List (String × β))
    {k : String} (h : alookup l1 k = none) : alookup (l1 ++ l2) k = alookup l2 k := by
  induction l1 with
  | nil => rfl
  | cons e t ih =>
    obtain ⟨k', v'⟩ := e
    by_cases hk : k' = k
    · simp [alookup_cons, hk] at h
    · rw [alookup_cons, if_neg hk] at h
      rw [List.cons_append, alookup_cons, if_neg hk]
      exact ih h

theorem alookup_eq_none_iff {β : Type} {l : List (String × β)} {k : String} :
    alookup l k = none ↔ k ∉ l.map Prod.fst := by
  induction l with
  | nil => simp [alookup_nil]
  | cons e t ih =>
    obtain ⟨k', v'⟩ := e
    by_cases hk : k' = k
    · simp [alookup_cons, hk]
    · simp [alookup_cons, hk, ih, Ne.symm hk]

theorem alookup_mem {β : Type} {l : List (String × β)} {k : String} {v : β}
    (h : alookup l k = some v) : (k, v) ∈ l := by
  induction l with
  | nil => simp [alookup_nil] at h
  | cons e t ih =>
    obtain ⟨k', v'⟩ := e
    by_cases hk : k' = k
    · rw [alookup_cons, if_pos hk] at h
      subst hk
      obtain rfl : v' = v := Option.some_inj.mp h
      exact List.mem_cons_self _ _
    · rw [alookup_cons, if_neg hk] at h
      exact List.mem_cons_of_mem _ (ih h)

theorem mem_alookup {β : Type} {l : List (String × β)} {k : String} {v : β}
    (hnd : (l.map Prod.fst).Nodup) (h : (k, v) ∈ l) : alookup l k = some v := by
  induction l with
  | nil => simp at h
  | cons e t ih =>
    obtain ⟨k', v'⟩ := e
    simp only [List.map_cons, List.nodup_cons] at hnd
    rcases List.mem_cons.mp h with heq | hmem
    · obtain ⟨rfl, rfl⟩ := Prod.mk.injEq .. ▸ heq
      simp [alookup_cons]
    · have hk : k' ≠ k := by
        rintro rfl
        exact hnd.1 (List.mem_map.mpr ⟨(k', v), hmem, rfl⟩)
      simp only [alookup, hk, if_false]
      exact ih hnd.2 hmem

theorem exists_alookup_of_mem_keys {β : Type} {l : List (String × β)} {k : String}
    (h : k ∈ l.map Prod.fst) : ∃ v, alookup l k = some v := by
  rcases he : alookup l k with _ | v
  · exact absurd (alookup_eq_none_iff.mp he) (not_not_intro h)
  · exact ⟨v, rfl⟩

theorem mem_keys_of_alookup {β : Type} {l : List (String × β)} {k : String} {v : β}
    (h : alookup l k = some v) : k ∈ l.map Prod.fst :=
  List.mem_map.mpr ⟨(k, v), alookup_mem h, rfl⟩

theorem entry_unique {β : Type} {l : List (String × β)} (hnd : (l.map Prod.fst).Nodup)
    {k : String} {v1 v2 : β} (h1 : (k, v1) ∈ l) (h2 : (k, v2) ∈ l) : v1 = v2 := by
  have e1 := mem_alookup hnd h1
  have e2 := mem_alookup hnd h2
  rw [e1] at e2
  exact Option.some_inj.mp e2.symm |>.symm

theorem nodup_snoc {α : Type} {l : List α} {a : α} (h : l.Nodup) (ha : a ∉ l) :
    (l ++ [a]).Nodup := by
  simp only [List.nodup_append, List.nodup_cons, List.not_mem_nil, not_false_iff,
    List.nodup_nil, and_true, true_and, h]
  intro x hx hxa
  rw [List.mem_singleton] at hxa
  exact ha (hxa ▸ hx)

/- ### Lemmas about `addPackage` (line 327) -/

theorem addPackage_keys (l : List (String × License)) (lhash ident : String) :
    (addPackage l lhash ident).map Prod.fst = l.map Prod.fst := by
  induction l with
  | nil => rfl
  | cons e t ih =>
    by_cases he : e.1 = lhash <;> simp [addPackage, he] at ih ⊢ <;> exact ih

theorem addPackage_cons (e : String × License) (t : List (String × License))
    (lhash ident : String) :
    addPackage (e :: t) lhash ident =
      (if e.1 = lhash then (e.1, { e.2 with packages := e.2.packages ++ [ident] }) else e)
        :: addPackage t lhash ident := rfl

theorem addPackage_lookup_ne {l : List (String × License)} {lhash ident k : String}
    (hk : k ≠ lhash) : alookup (addPackage l lhash ident) k = alookup l k := by
  induction l with
  | nil => rfl
  | cons e t ih =>
    obtain ⟨k', v'⟩ := e
    rw [addPackage_cons]
    by_cases he : k' = lhash
    · rw [if_pos he]
      have hne : k' ≠ k := fun h => hk (h ▸ he)
      simp only [alookup_cons, if_neg hne]
      exact ih
    · rw [if_neg he]
      by_cases hkk : k' = k
      · simp only [alookup_cons, if_pos hkk]
      · simp only [alookup_cons, if_neg hkk]
        exact ih

theorem addPackage_lookup_eq (l : List (String × License)) (lhash ident : String) :
    alookup (addPackage l lhash ident) lhash =
      (alookup l lhash).map (fun L => { L with packages := L.packages ++ [ident] }) := by
  induction l with
  | nil => rfl
  | cons e t ih =>
    obtain ⟨k', v'⟩ := e
    rw [addPackage_cons]
    by_cases he : k' = lhash
    · rw [if_pos he]
      simp only [alookup_cons, if_pos he]
      rfl
    · rw [if_neg he]
      simp only [alookup_cons, if_neg he]
      exact ih

theorem addPackage_mem {l : List (String × License)} {lhash ident k : String} {v : License}
    (h : (k, v) ∈ addPackage l lhash ident) :
    ∃ v₀, (k, v₀) ∈ l ∧
      v = (if k = lhash then { v₀ with packages := v₀.packages ++ [ident] } else v₀) := by
  induction l with
  | nil => simp [addPackage] at h
  | cons e t ih =>
    obtain ⟨k', v'⟩ := e
    rw [addPackage_cons] at h
    by_cases he : k' = lhash
    · rw [if_pos he] at h
      rcases List.mem_cons.mp h with heq | hmem
      · obtain ⟨rfl, rfl⟩ := Prod.mk.injEq .. ▸ heq
        exact ⟨v', List.mem_cons_self _ _, by rw [if_pos he]⟩
      · obtain ⟨v₀, hm, hv⟩ := ih hmem
        exact ⟨v₀, List.mem_cons_of_mem _ hm, hv⟩
    · rw [if_neg he] at h
      rcases List.mem_cons.mp h with heq | hmem
      · obtain ⟨rfl, rfl⟩ := Prod.mk.injEq .. ▸ heq
        exact ⟨v, List.mem_cons_self _ _, by rw [if_neg he]⟩
      · obtain ⟨v₀, hm, hv⟩ := ih hmem
        exact ⟨v₀, List.mem_cons_of_mem _ hm, hv⟩

/- ### Lemmas about `resolveLicense` (lines 294-314) -/

theorem resolveLicense_known {l : List (String × License)} {ltype lhash ident : String}
    {download : Option String} {L : License} (h : alookup l lhash = some L) :
    resolveLicense l ltype lhash ident download = l := by
  rw [resolveLicense, h]

theorem resolveLicense_new {l : List (String × License)} {ltype lhash ident : String}
    {download : Option String} (h : alookup l lhash = none) :
    resolveLicense l ltype lhash ident download =
      l ++ [(lhash,
        ⟨if (l.filter (fun e => e.2.type == ltype)).length = 0 then ltype
          else ltype ++ "(" ++ toString (l.filter (fun e => e.2.type == ltype)).length ++ ")",
         ltype, lhash,
         download.map (fun dl => dl ++ "/" ++ ltype ++ "/" ++ ident), []⟩)] := by
  rw [resolveLicense, h]

theorem resolveLicense_keys_nodup {l : List (String × License)} (ltype lhash ident : String)
    (download : Option String) (hnd : (l.map Prod.fst).Nodup) :
    ((resolveLicense l ltype lhash ident download).map Prod.fst).Nodup := by
  rcases h : alookup l lhash with _ | L
  · rw [resolveLicense_new h, List.map_append]
    exact nodup_snoc hnd (alookup_eq_none_iff.mp h)
  · rw [resolveLicense_known h]
    exact hnd

theorem resolveLicense_lookup_preserved {l : List (String × License)}
    {ltype lhash ident : String} {download : Option String} {k : String} {v : License}
    (h : alookup l k = some v) :
    alookup (resolveLicense l ltype lhash ident download) k = some v := by
  rcases hr : alookup l lhash with _ | L
  · rw [resolveLicense_new hr]
    exact alookup_append_left _ h
  · rw [resolveLicense_known hr]
    exact h

theorem resolveLicense_lookup_self (l : List (String × License)) (ltype lhash ident : String)
    (download : Option String) :
    ∃ L, alookup (resolveLicense l ltype lhash ident download) lhash = some L ∧
      ((alookup l lhash = none → L.packages = []) ∧ ∀ v, alookup l lhash = some v → L = v) := by
  rcases hr : alookup l lhash with _ | L
  · rw [resolveLicense_new hr, alookup_append_right _ hr]
    refine ⟨⟨if (l.filter (fun e => e.2.type == ltype)).length = 0 then ltype
        else ltype ++ "(" ++ toString (l.filter (fun e => e.2.type == ltype)).length ++ ")",
        ltype, lhash, download.map (fun dl => dl ++ "/" ++ ltype ++ "/" ++ ident), []⟩,
      ?_, fun _ => rfl, ?_⟩
    · rw [alookup_cons, if_pos rfl]
    · intro v hv
      cases hv
  · rw [resolveLicense_known hr]
    refine ⟨L, hr, ?_, ?_⟩
    · intro h
      cases h
    · intro v hv
      exact Option.some_inj.mp hv

theorem resolveLicense_mem {l : List (String × License)} {ltype lhash ident : String}
    {download : Option String} {k : String} {v : License}
    (h : (k, v) ∈ resolveLicense l ltype lhash ident download) :
    (k, v) ∈ l ∨ (k = lhash ∧ v.packages = []) := by
  rcases hr : alookup l lhash with _ | L
  · rw [resolveLicense_new hr] at h
    rcases List.mem_append.mp h with hm | hm
    · exact Or.inl hm
    · rw [List.mem_singleton] at hm
      obtain ⟨rfl, rfl⟩ := Prod.mk.injEq .. ▸ hm
      exact Or.inr ⟨rfl, rfl⟩
  · rw [resolveLicense_known hr] at h
    exact Or.inl h

/- ### Preservation of the license/package relation by one successful step
     (lines 294-331: resolve the license, record the usage, store the package) -/

theorem LicInv_update {licenses : List (String × License)} {res : List (String × Package)}
    {t h i : String} {d : Option String} {P : Package}
    (inv : LicInv licenses res) (hi : alookup res i = none) (hP : P.license_hash = h) :
    LicInv (addPackage (resolveLicense licenses t h i d) h i) (res ++ [(i, P)]) := by
  have hMnd : ((resolveLicense licenses t h i d).map Prod.fst).Nodup :=
    resolveLicense_keys_nodup t h i d inv.keysNodup
  have hlookup_i : alookup (res ++ [(i, P)]) i = some P := by
    rw [alookup_append_right _ hi, alookup_cons, if_pos rfl]
  have hnotin : ∀ {k : String} {L : License}, (k, L) ∈ licenses → i ∉ L.packages := by
    intro k L hm hmem
    obtain ⟨Px, hx, _⟩ := inv.pkgRes k L hm i hmem
    rw [hi] at hx
    cases hx
  constructor
  · rw [addPackage_keys]
    exact hMnd
  · intro k v hkv
    obtain ⟨v₀, hm0, hv⟩ := addPackage_mem hkv
    rcases resolveLicense_mem hm0 with hmL | ⟨hkh, hpk⟩
    · by_cases hkh : k = h
      · rw [hv, if_pos hkh]
        exact nodup_snoc (inv.pkgNodup k v₀ hmL) (hnotin hmL)
      · rw [hv, if_neg hkh]
        exact inv.pkgNodup k v₀ hmL
    · rw [hv, if_pos hkh]
      simp [hpk]
  · intro k v hkv x hx
    obtain ⟨v₀, hm0, hv⟩ := addPackage_mem hkv
    by_cases hkh : k = h
    · rw [hv, if_pos hkh] at hx
      rcases List.mem_append.mp hx with hx0 | hxi
      · rcases resolveLicense_mem hm0 with hmL | ⟨_, hpk⟩
        · obtain ⟨Px, hlx, hhx⟩ := inv.pkgRes k v₀ hmL x hx0
          exact ⟨Px, alookup_append_left _ hlx, hhx⟩
        · rw [hpk] at hx0
          cases hx0
      · rw [List.mem_singleton] at hxi
        subst hxi
        exact ⟨P, hlookup_i, hP.trans hkh.symm⟩
    · rw [hv, if_neg hkh] at hx
      rcases resolveLicense_mem hm0 with hmL | ⟨hk2, _⟩
      · obtain ⟨Px, hlx, hhx⟩ := inv.pkgRes k v₀ hmL x hx
        exact ⟨Px, alookup_append_left _ hlx, hhx⟩
      · exact absurd hk2 hkh
  · intro p Q hq
    obtain ⟨Lh, hLh, _, _⟩ := resolveLicense_lookup_self licenses t h i d
    rcases hrp : alookup res p with _ | Q'
    · rw [alookup_append_right _ hrp, alookup_cons] at hq
      by_cases hip : i = p
      · rw [if_pos hip] at hq
        obtain rfl : P = Q := Option.some_inj.mp hq
        refine ⟨{ Lh with packages := Lh.packages ++ [i] }, ?_, ?_⟩
        · rw [hP, addPackage_lookup_eq, hLh]
          rfl
        · subst hip
          exact List.mem_append_right _ (List.mem_singleton.mpr rfl)
      · rw [if_neg hip] at hq
        cases hq
    · have hq' : alookup (res ++ [(i, P)]) p = some Q' := alookup_append_left _ hrp
      rw [hq'] at hq
      obtain rfl : Q' = Q := Option.some_inj.mp hq
      obtain ⟨L₀, hl0, hpL0⟩ := inv.resPkg p Q' hrp
      have hM0 : alookup (resolveLicense licenses t h i d) Q'.license_hash = some L₀ :=
        resolveLicense_lookup_preserved hl0
      by_cases hQh : Q'.license_hash = h
      · refine ⟨{ L₀ with packages := L₀.packages ++ [i] }, ?_, List.mem_append_left _ hpL0⟩
        have hMh : alookup (resolveLicense licenses t h i d) h = some L₀ := hQh ▸ hM0
        rw [hQh, addPackage_lookup_eq, hMh]
        rfl
      · exact ⟨L₀, by rw [addPackage_lookup_ne hQh]; exact hM0, hpL0⟩

/- ### Characterizing one loop iteration by branch (lines 213-337) -/

theorem step_nil {w : World} {d : Option String} {st : CrawlState} (h : st.todo = []) :
    step w d st = st := by
  unfold step
  rw [h]

theorem step_skip {w : World} {d : Option String} {st : CrawlState} {i u : String} {nid : Nat}
    {rest : List (String × String × Nat)} (ht : st.todo = (i, u, nid) :: rest)
    (hd : i ∈ st.done) :
    step w d st = { st with todo := rest, lastTree := nid } := by
  unfold step
  rw [ht]
  simp [hd]

theorem step_fail {w : World} {d : Option String} {st : CrawlState} {i u : String} {nid : Nat}
    {rest : List (String × String × Nat)} (ht : st.todo = (i, u, nid) :: rest)
    (hd : i ∉ st.done) (hf : (w.get u).status_code ≠ 200) :
    step w d st =
      { st with
        todo := rest
        lastTree := nid
        done := st.done ++ [i]
        fetches := st.fetches ++ [i]
        warnings := st.warnings ++ [Warning.pageFailed i] } := by
  unfold step
  rw [ht]
  simp [hd, hf]

theorem step_success {w : World} {d : Option String} {st : CrawlState} {i u : String} {nid : Nat}
    {rest : List (String × String × Nat)} (ht : st.todo = (i, u, nid) :: rest)
    (hd : i ∉ st.done) (hs : (w.get u).status_code = 200) :
    step w d st = processSuccess w d i u nid rest (w.get u) st := by
  unfold step
  rw [ht]
  simp [hd, hs]

theorem run_succ_nil {w : World} {d : Option String} {st : CrawlState} (fuel : Nat)
    (h : st.todo = []) : run w d (fuel + 1) st = st := by
  unfold run
  rw [h]

theorem run_succ_cons {w : World} {d : Option String} {st : CrawlState} (fuel : Nat)
    {x : String × String × Nat} {rest : List (String × String × Nat)}
    (h : st.todo = x :: rest) : run w d (fuel + 1) st = run w d fuel (step w d st) := by
  conv_lhs => rw [run]
  rw [h]

/- ### The loop invariant is established and preserved -/

theorem LicInv_nil : LicInv [] [] := by
  constructor
  · simp
  · intro h L hm
    simp at hm
  · intro h L hm
    simp at hm
  · intro p P hp
    cases hp

theorem CrawlInv_init (i u : String) : CrawlInv (initState i u) := by
  constructor
  · exact List.nodup_nil
  · exact List.nodup_nil
  · intro x hx
    cases hx
  · exact List.nodup_nil
  · intro x hx
    cases hx
  · exact LicInv_nil

theorem CrawlInv_skip {st : CrawlState} (inv : CrawlInv st)
    (todo' : List (String × String × Nat)) (nid : Nat) :
    CrawlInv { st with todo := todo', lastTree := nid } :=
  ⟨inv.doneNodup, inv.fetchNodup, inv.fetchDone, inv.resKeysNodup, inv.resDone, inv.lic⟩

theorem CrawlInv_fail {st : CrawlState} (inv : CrawlInv st) {i : String}
    (hd : i ∉ st.done) (todo' : List (String × String × Nat)) (nid : Nat) :
    CrawlInv { st with
      todo := todo'
      lastTree := nid
      done := st.done ++ [i]
      fetches := st.fetches ++ [i]
      warnings := st.warnings ++ [Warning.pageFailed i] } := by
  constructor
  · exact nodup_snoc inv.doneNodup hd
  · exact nodup_snoc inv.fetchNodup (fun hf => hd (inv.fetchDone i hf))
  · intro x hx
    rcases List.mem_append.mp hx with h1 | h2
    · exact List.mem_append_left _ (inv.fetchDone x h1)
    · exact List.mem_append_right _ h2
  · exact inv.resKeysNodup
  · intro x hx
    exact List.mem_append_left _ (inv.resDone x hx)
  · exact inv.lic

theorem CrawlInv_snoc {st : CrawlState} (inv : CrawlInv st) {i t h : String}
    {d : Option String} {P : Package} (hd : i ∉ st.done) (hP : P.license_hash = h)
    (todo' : List (String × String × Nat)) (nodes' : List Node) (nid : Nat)
    (warns : List Warning) :
    CrawlInv { todo := todo'
               done := st.done ++ [i]
               res := st.res ++ [(i, P)]
               licenses := addPackage (resolveLicense st.licenses t h i d) h i
               nodes := nodes'
               lastTree := nid
               fetches := st.fetches ++ [i]
               warnings := warns } := by
  have hires : alookup st.res i = none :=
    alookup_eq_none_iff.mpr (fun hmem => hd (inv.resDone i hmem))
  constructor
  · exact nodup_snoc inv.doneNodup hd
  · exact nodup_snoc inv.fetchNodup (fun hf => hd (inv.fetchDone i hf))
  · intro x hx
    rcases List.mem_append.mp hx with h1 | h2
    · exact List.mem_append_left _ (inv.fetchDone x h1)
    · exact List.mem_append_right _ h2
  · show ((st.res ++ [(i, P)]).map Prod.fst).Nodup
    rw [List.map_append]
    exact nodup_snoc inv.resKeysNodup (fun hm => hd (inv.resDone i hm))
  · intro x hx
    rw [List.map_append] at hx
    rcases List.mem_append.mp hx with h1 | h2
    · exact List.mem_append_left _ (inv.resDone x h1)
    · exact List.mem_append_right _ h2
  · exact LicInv_update inv.lic hires hP

theorem CrawlInv_step (w : World) (d : Option String) (st : CrawlState) (inv : CrawlInv st) :
    CrawlInv (step w d st) := by
  rcases ht : st.todo with _ | ⟨⟨i, u, nid⟩, rest⟩
  · rw [step_nil ht]
    exact inv
  · by_cases hd : i ∈ st.done
    · rw [step_skip ht hd]
      exact CrawlInv_skip inv rest nid
    · by_cases hs : (w.get u).status_code = 200
      · rw [step_success ht hd hs]
        exact CrawlInv_snoc inv hd rfl _ _ _ _
      · rw [step_fail ht hd hs]
        exact CrawlInv_fail inv hd rest nid

theorem CrawlInv_run (w : World) (d : Option String) :
    ∀ (fuel : Nat) (st : CrawlState), CrawlInv st → CrawlInv (run w d fuel st)
  | 0, _, h => h
  | fuel + 1, st, h => by
    rcases ht : st.todo with _ | ⟨x, rest⟩
    · rw [run_succ_nil fuel ht]
      exact h
    · rw [run_succ_cons fuel ht]
      exact CrawlInv_run w d fuel _ (CrawlInv_step w d st h)

theorem CrawlInv_crawl (w : World) (d : Option String) (fuel : Nat) (i u : String) :
    CrawlInv (crawl w d fuel i u) :=
  CrawlInv_run w d fuel _ (CrawlInv_init i u)

/- ### Visited idents are never fetched again (lines 220-223 guard) -/

theorem step_count_of_done (w : World) (d : Option String) {st : CrawlState} {i : String}
    (hi : i ∈ st.done) :
    (step w d st).fetches.count i = st.fetches.count i ∧ i ∈ (step w d st).done := by
  rcases ht : st.todo with _ | ⟨⟨a, u, nid⟩, rest⟩
  · rw [step_nil ht]
    exact ⟨rfl, hi⟩
  · by_cases hd : a ∈ st.done
    · rw [step_skip ht hd]
      exact ⟨rfl, hi⟩
    · have hai : i ≠ a := fun h => hd (h ▸ hi)
      have hcount : (st.fetches ++ [a]).count i = st.fetches.count i := by
        rw [List.count_append]
        have h0 : ([a] : List String).count i = 0 := by
          rw [List.count_eq_zero]
          simpa using hai
        rw [h0, Nat.add_zero]
      by_cases hs : (w.get u).status_code = 200
      · rw [step_success ht hd hs]
        exact ⟨hcount, List.mem_append_left _ hi⟩
      · rw [step_fail ht hd hs]
        exact ⟨hcount, List.mem_append_left _ hi⟩

theorem run_count_of_done (w : World) (d : Option String) :
    ∀ (fuel : Nat) (st : CrawlState) (i : String), i ∈ st.done →
      (run w d fuel st).fetches.count i = st.fetches.count i
  | 0, _, _, _ => rfl
  | fuel + 1, st, i, hi => by
    rcases ht : st.todo with _ | ⟨x, rest⟩
    · rw [run_succ_nil fuel ht]
    · rw [run_succ_cons fuel ht]
      obtain ⟨hc, hd⟩ := step_count_of_done w d hi
      rw [run_count_of_done w d fuel (step w d st) i hd, hc]

/- ### Claim theorems -/

/-- C1: in any crawl run, two stored packages are recorded under the same
License entry (some entry lists both their idents) if and only if their stored
license-content hashes are equal; in particular two packages with the same
declared type and byte-identical bodies land in one entry that lists both
idents (mirrors lines 286-327). -/
theorem c1_same_license_iff_hash (w : World) (d : Option String) (fuel : Nat)
    (root rootUrl p q : String) (P Q : Package)
    (hp : alookup (crawl w d fuel root rootUrl).res p = some P)
    (hq : alookup (crawl w d fuel root rootUrl).res q = some Q) :
    (∃ h L, (h, L) ∈ (crawl w d fuel root rootUrl).licenses ∧
        p ∈ L.packages ∧ q ∈ L.packages) ↔
      P.license_hash = Q.license_hash := by
  have inv := CrawlInv_crawl w d fuel root rootUrl
  constructor
  · rintro ⟨h, L, hm, hpL, hqL⟩
    obtain ⟨P', hP', hhP⟩ := inv.lic.pkgRes h L hm p hpL
    obtain ⟨Q', hQ', hhQ⟩ := inv.lic.pkgRes h L hm q hqL
    rw [hp] at hP'
    rw [hq] at hQ'
    obtain rfl : P = P' := Option.some_inj.mp hP'
    obtain rfl : Q = Q' := Option.some_inj.mp hQ'

    rw [hhP, hhQ]
  · intro heq
    obtain ⟨L, hL, hpL⟩ := inv.lic.resPkg p P hp
    obtain ⟨L', hL', hqL⟩ := inv.lic.resPkg q Q hq
    rw [heq] at hL
    rw [hL] at hL'
    obtain rfl : L = L' := Option.some_inj.mp hL'
    exact ⟨Q.license_hash, L, alookup_mem hL, hpL, hqL⟩

/-- C1 witness: in the concrete world `w1`, `eflint` and `aeson` both declare
`MIT` with identical body text; the theorem instance plus the evaluated
lookups show they share one License entry. -/
theorem c1_witness :
    alookup (crawl w1 none 5 "eflint" "U/eflint").res "eflint" =
        some ⟨"eflint", "descA", "U/eflint", "MIT", some "L/eflint", "#TEXT"⟩ ∧
      alookup (crawl w1 none 5 "eflint" "U/eflint").res "aeson" =
        some ⟨"aeson", "descB", "U/aeson", "MIT", some "L/aeson", "#TEXT"⟩ ∧
      ((∃ h L, (h, L) ∈ (crawl w1 none 5 "eflint" "U/eflint").licenses ∧
          "eflint" ∈ L.packages ∧ "aeson" ∈ L.packages) ↔
        Package.license_hash ⟨"eflint", "descA", "U/eflint", "MIT", some "L/eflint", "#TEXT"⟩ =
          Package.license_hash ⟨"aeson", "descB", "U/aeson", "MIT", some "L/aeson", "#TEXT"⟩) :=
  ⟨by decide, by decide,
    c1_same_license_iff_hash w1 none 5 "eflint" "U/eflint" "eflint" "aeson" _ _
      (by decide) (by decide)⟩

/-- C2: for every world (sequence of page responses), every fuel and every
root, the fetch log contains no ident twice (each ident is fetched and parsed
at most once), the package-map keys are duplicate-free, and the visited set
contains no duplicates — the guard of lines 220-223 together with the updates
of lines 248 and 329-331. -/
theorem c2_no_duplicate_processing (w : World) (d : Option String) (fuel : Nat)
    (root rootUrl : String) :
    (crawl w d fuel root rootUrl).fetches.Nodup ∧
      ((crawl w d fuel root rootUrl).res.map Prod.fst).Nodup ∧
      (crawl w d fuel root rootUrl).done.Nodup :=
  ⟨(CrawlInv_crawl w d fuel root rootUrl).fetchNodup,
    (CrawlInv_crawl w d fuel root rootUrl).resKeysNodup,
    (CrawlInv_crawl w d fuel root rootUrl).doneNodup⟩

/-- C3 counterexample: in world `w3` both packages lack a license URL and
declare DIFFERENT types (`MIT` for `a`, `BSD` for `b`), yet — contrary to the
claim that body-less packages of different declared types never share a
License entry — the run stores the single constant sentinel key
`"<unhashed>"` (line 292) and unifies both packages into that one entry. -/
theorem c3_counterexample :
    (crawl w3 none 5 "a" "U/a").res =
        [("a", ⟨"a", "da", "U/a", "MIT", none, "<unhashed>"⟩),
         ("b", ⟨"b", "db", "U/b", "BSD", none, "<unhashed>"⟩)] ∧
      (crawl w3 none 5 "a" "U/a").licenses =
        [("<unhashed>", ⟨"MIT", "MIT", "<unhashed>", none, ["a", "b"]⟩)] :=
  ⟨by decide, by decide⟩

/-- C3 (amended): a package processed without a retrievable license body is
stored with the CONSTANT sentinel hash `"<unhashed>"` (line 292), independent
of its declared type, and its ident is appended to the single License entry
keyed by that sentinel — so ALL body-less packages share one entry regardless
of declared type. -/
theorem c3_sentinel_constant (w : World) (d : Option String) (st : CrawlState)
    (i u : String) (nid : Nat) (rest : List (String × String × Nat))
    (ht : st.todo = (i, u, nid) :: rest) (hd : i ∉ st.done)
    (hs : (w.get u).status_code = 200)
    (hnil : (w.extract (w.get u).text).license_url = none) :
    ∃ P, (step w d st).res = st.res ++ [(i, P)] ∧ P.license_hash = "<unhashed>" ∧
      ∃ L, alookup (step w d st).licenses "<unhashed>" = some L ∧ i ∈ L.packages := by
  rw [step_success ht hd hs]
  simp only [processSuccess, hnil, Option.map_none']
  refine ⟨_, rfl, rfl, ?_⟩
  obtain ⟨L, hL, _, _⟩ :=
    resolveLicense_lookup_self st.licenses (w.extract (w.get u).text).license "<unhashed>" i d
  refine ⟨{ L with packages := L.packages ++ [i] }, ?_,
    List.mem_append_right _ (List.mem_singleton.mpr rfl)⟩
  rw [addPackage_lookup_eq, hL]
  rfl

/-- C3 witness: applying the amended theorem to world `w3` at the root
package `a` (declared `MIT`, no license URL). -/
theorem c3_witness :
    (initState "a" "U/a").todo = ("a", "U/a", 0) :: [] ∧
      "a" ∉ (initState "a" "U/a").done ∧
      (w3.get "U/a").status_code = 200 ∧
      (w3.extract (w3.get "U/a").text).license_url = none ∧
      (∃ P, (step w3 none (initState "a" "U/a")).res = (initState "a" "U/a").res ++ [("a", P)] ∧
        P.license_hash = "<unhashed>" ∧
        ∃ L, alookup (step w3 none (initState "a" "U/a")).licenses "<unhashed>" = some L ∧
          "a" ∈ L.packages) :=
  ⟨rfl, by decide, by decide, by decide,
    c3_sentinel_constant w3 none (initState "a" "U/a") "a" "U/a" 0 [] rfl (by decide)
      (by decide) (by decide)⟩

/-- C4: when a previously-unseen content hash is resolved (lines 294-298), the
new entry's type is the declared type and its name is the declared type when
no existing entry has that type, else the declared type suffixed with the
count of existing entries of that SAME declared type — the counter is scoped
to the declared type, not global. -/
theorem c4_type_scoped_naming (licenses : List (String × License)) (t lhash ident : String)
    (d : Option String) (hnew : alookup licenses lhash = none) :
    ∃ L, resolveLicense licenses t lhash ident d = licenses ++ [(lhash, L)] ∧ L.type = t ∧
      L.name = (if (licenses.filter (fun e => e.2.type == t)).length = 0 then t
        else t ++ "(" ++ toString (licenses.filter (fun e => e.2.type == t)).length ++ ")") :=
  ⟨_, resolveLicense_new hnew, rfl, rfl⟩

/-- C4 witness: with one existing `MIT` entry, resolving a second, different
hash declared `MIT` yields an entry named `MIT(1)`. -/
theorem c4_witness :
    alookup [("h1", (⟨"MIT", "MIT", "h1", none, ["p1"]⟩ : License))] "h2" = none ∧
      ∃ L, resolveLicense [("h1", ⟨"MIT", "MIT", "h1", none, ["p1"]⟩)] "MIT" "h2" "p2" none =
          [("h1", ⟨"MIT", "MIT", "h1", none, ["p1"]⟩)] ++ [("h2", L)] ∧ L.type = "MIT" ∧
        L.name = "MIT(1)" := by
  refine ⟨by decide, ?_⟩
  obtain ⟨L, h1, h2, h3⟩ :=
    c4_type_scoped_naming [("h1", ⟨"MIT", "MIT", "h1", none, ["p1"]⟩)] "MIT" "h2" "p2" none
      (by decide)
  refine ⟨L, h1, h2, ?_⟩
  rw [h3]
  decide

/-- C5: on world `w3` the crawl terminates (`todo = []`) having discovered
both packages and recorded the dependency edge in the node arena (node 0,
the root `a`, has child 1), yet the value `Package.scrape` returns as the
dependency tree (line 340, the loop variable rebound at line 214) is the
empty children list of the LAST-processed node — the rooted tree is lost. -/
theorem c5_returned_tree_lost :
    (crawl w3 none 5 "a" "U/a").todo = [] ∧
      (crawl w3 none 5 "a" "U/a").res.map Prod.fst = ["a", "b"] ∧
      (crawl w3 none 5 "a" "U/a").nodes = [⟨"a", [1]⟩, ⟨"b", []⟩] ∧
      (crawl w3 none 5 "a" "U/a").lastTree = 1 ∧
      returnedTree (crawl w3 none 5 "a" "U/a") = [] :=
  ⟨by decide, by decide, by decide, by decide, by decide⟩

/-- C6: in world `w6` the page of `p` succeeds but the license-body GET
returns status 404 with body `"NOTFOUND"`; because line 281 tests
`html.status_code` (the page response, already known to be 200) instead of
the body response, the crawl emits NO warning, and the stored hash is the
hash of the failed response's body (`"#NOTFOUND"`), not the `"<unhashed>"`
sentinel — the failed body IS used as license content. -/
theorem c6_failed_body_hashed :
    (w6.get "L/p").status_code = 404 ∧
      (alookup (crawl w6 none 5 "p" "U/p").res "p").map Package.license_hash =
        some "#NOTFOUND" ∧
      (crawl w6 none 5 "p" "U/p").warnings = [] ∧
      (crawl w6 none 5 "p" "U/p").licenses =
        [("#NOTFOUND", ⟨"MIT", "MIT", "#NOTFOUND", none, ["p"]⟩)] :=
  ⟨by decide, by decide, by decide, by decide⟩

/-- C7: when the page GET for a fresh queue item fails (status ≠ 200, lines
245-249), the ident is recorded as visited, a warning is emitted, the package
map and the license map are untouched, and — for any amount of further
crawling — the ident's page is never fetched again. -/
theorem c7_page_failure_drop (w : World) (d : Option String) (st : CrawlState)
    (i u : String) (nid : Nat) (rest : List (String × String × Nat))
    (ht : st.todo = (i, u, nid) :: rest) (hd : i ∉ st.done)
    (hf : (w.get u).status_code ≠ 200) :
    (step w d st).done = st.done ++ [i] ∧
      (step w d st).res = st.res ∧
      (step w d st).licenses = st.licenses ∧
      (step w d st).warnings = st.warnings ++ [Warning.pageFailed i] ∧
      ∀ fuel, (run w d fuel (step w d st)).fetches.count i =
        (step w d st).fetches.count i := by
  rw [step_fail ht hd hf]
  refine ⟨rfl, rfl, rfl, rfl, fun fuel => ?_⟩
  exact run_count_of_done w d fuel _ i
    (List.mem_append_right _ (List.mem_singleton.mpr rfl))

/-- C7 witness: in world `w7` every page GET fails with status 500; applying
the theorem to the initial state for root `p`. -/
theorem c7_witness :
    (initState "p" "Ubad").todo = ("p", "Ubad", 0) :: [] ∧
      "p" ∉ (initState "p" "Ubad").done ∧
      (w7.get "Ubad").status_code ≠ 200 ∧
      ((step w7 none (initState "p" "Ubad")).done = (initState "p" "Ubad").done ++ ["p"] ∧
        (step w7 none (initState "p" "Ubad")).res = (initState "p" "Ubad").res ∧
        (step w7 none (initState "p" "Ubad")).licenses = (initState "p" "Ubad").licenses ∧
        (step w7 none (initState "p" "Ubad")).warnings =
          (initState "p" "Ubad").warnings ++ [Warning.pageFailed "p"] ∧
        ∀ fuel, (run w7 none fuel (step w7 none (initState "p" "Ubad"))).fetches.count "p" =
          (step w7 none (initState "p" "Ubad")).fetches.count "p") :=
  ⟨rfl, by decide, by decide,
    c7_page_failure_drop w7 none (initState "p" "Ubad") "p" "Ubad" 0 [] rfl (by decide)
      (by decide)⟩

/-- C8: the crawl is a deterministic function of its inputs — two runs against
worlds with identical responses, identical page extraction and the identical
hash function produce identical final states, stored license hashes
included. -/
theorem c8_deterministic (wa wb : World) (d : Option String) (fuel : Nat)
    (root rootUrl : String) (hg : wa.get = wb.get) (he : wa.extract = wb.extract)
    (hh : wa.pyHash = wb.pyHash) :
    crawl wa d fuel root rootUrl = crawl wb d fuel root rootUrl := by
  obtain ⟨ga, ea, pa⟩ := wa
  obtain ⟨gb, eb, pb⟩ := wb
  have h1 : ga = gb := hg
  have h2 : ea = eb := he
  have h3 : pa = pb := hh
  subst h1
  subst h2
  subst h3
  rfl

/-- C8 witness: two runs against the unchanged world `w1` are identical. -/
theorem c8_witness :
    w1.get = w1.get ∧ w1.extract = w1.extract ∧ w1.pyHash = w1.pyHash ∧
      crawl w1 none 5 "eflint" "U/eflint" = crawl w1 none 5 "eflint" "U/eflint" :=
  ⟨rfl, rfl, rfl, c8_deterministic w1 w1 none 5 "eflint" "U/eflint" rfl rfl rfl⟩

/-- C9: the report loop of `main` (lines 377-384) never consults `trim` — the
rendered report is identical for `trim = true` and `trim = false`, and in a
concrete instance with `trim = true` the per-license package listing is still
present (and sections match on the package's DECLARED license string,
line 382). -/
theorem c9_trim_has_no_effect :
    (∀ (pkgs : List (String × Package)) (licenses : List (String × License)),
        renderReport pkgs licenses true = renderReport pkgs licenses false) ∧
      renderReport [("eflint", ⟨"eflint", "descA", "U/eflint", "MIT", some "L/eflint", "#TEXT"⟩)]
          [("#TEXT", ⟨"MIT", "MIT", "#TEXT", none, ["eflint"]⟩)] true =
        [("MIT", ["eflint"])] :=
  ⟨fun _ _ => rfl, by decide⟩

/-- C10: after every number of crawl steps, the packages lists of the License
entries are duplicate-free, pairwise disjoint (an ident in two entries forces
them to be the same entry), and their union is exactly the key set of the
package map accumulated so far (lines 326-331 append each successful ident to
exactly one entry in the step that stores the package). -/
theorem c10_license_partition (w : World) (d : Option String) (fuel : Nat)
    (root rootUrl : String) :
    (∀ h L, (h, L) ∈ (crawl w d fuel root rootUrl).licenses → L.packages.Nodup) ∧
      (∀ h1 L1 h2 L2 x, (h1, L1) ∈ (crawl w d fuel root rootUrl).licenses →
        (h2, L2) ∈ (crawl w d fuel root rootUrl).licenses →
        x ∈ L1.packages → x ∈ L2.packages → h1 = h2 ∧ L1 = L2) ∧
      (∀ x, (∃ h L, (h, L) ∈ (crawl w d fuel root rootUrl).licenses ∧ x ∈ L.packages) ↔
        x ∈ (crawl w d fuel root rootUrl).res.map Prod.fst) := by
  have inv := CrawlInv_crawl w d fuel root rootUrl
  refine ⟨inv.lic.pkgNodup, ?_, ?_⟩
  · intro h1 L1 h2 L2 x hm1 hm2 hx1 hx2
    obtain ⟨P1, hp1, hh1⟩ := inv.lic.pkgRes h1 L1 hm1 x hx1
    obtain ⟨P2, hp2, hh2⟩ := inv.lic.pkgRes h2 L2 hm2 x hx2
    rw [hp1] at hp2
    obtain rfl : P1 = P2 := Option.some_inj.mp hp2
    have hh : h1 = h2 := hh1.symm.trans hh2
    subst hh
    exact ⟨rfl, entry_unique inv.lic.keysNodup hm1 hm2⟩
  · intro x
    constructor
    · rintro ⟨h, L, hm, hx⟩
      obtain ⟨P, hp, _⟩ := inv.lic.pkgRes h L hm x hx
      exact mem_keys_of_alookup hp
    · intro hx
      obtain ⟨P, hp⟩ := exists_alookup_of_mem_keys hx
      obtain ⟨L, hL, hxL⟩ := inv.lic.resPkg x P hp
      exact ⟨P.license_hash, L, alookup_mem hL, hxL⟩
